import Mathlib

/-!
Verification development for the low-level Build/Resolve/Hash framework of an
OpenAPI data model library, exemplified by two object builders: the v3 `Paths`
collection (pipeline-driven construction) and the v2 `Responses` collection
(simple extraction).  YAML nodes are shallowly embedded as an inductive type;
the concurrent translation pipeline is modelled functionally (submission order
stands in for the nondeterministic completion order, and order-independence of
the observable results is proved separately); the 256-bit cryptographic digest
is modelled as a deterministic fold over the rendered string.
-/

/-- Kind tag of a parsed document node (scalar, mapping or sequence). -/
inductive NodeKind where
  | scalar
  | mapping
  | sequence
deriving DecidableEq, Repr

/-- A position-annotated unit of the parsed document tree: kind, decoded text
value, ordered child list (flat, alternating key/value for mappings), and
source position.  Mirrors the externally owned `yaml.Node`. -/
inductive YNode where
  | mk (kind : NodeKind) (value : String) (content : List YNode)
      (line : Nat) (column : Nat)

mutual

/-- Structural decidable equality for nodes. -/
def YNode.decEq : (a b : YNode) → Decidable (a = b)
  | .mk k1 v1 c1 l1 m1, .mk k2 v2 c2 l2 m2 =>
    if hk : k1 = k2 then
      if hv : v1 = v2 then
        match YNode.decEqList c1 c2 with
        | isTrue hc =>
          if hl : l1 = l2 then
            if hm : m1 = m2 then isTrue (by rw [hk, hv, hc, hl, hm])
            else isFalse (by intro h; injection h; contradiction)
          else isFalse (by intro h; injection h; contradiction)
        | isFalse hc => isFalse (by intro h; injection h; contradiction)
      else isFalse (by intro h; injection h; contradiction)
    else isFalse (by intro h; injection h; contradiction)

/-- Structural decidable equality for node lists. -/
def YNode.decEqList : (a b : List YNode) → Decidable (a = b)
  | [], [] => isTrue rfl
  | [], _ :: _ => isFalse (fun h => List.noConfusion h)
  | _ :: _, [] => isFalse (fun h => List.noConfusion h)
  | x :: xs, y :: ys =>
    match YNode.decEq x y, YNode.decEqList xs ys with
    | isTrue h1, isTrue h2 => isTrue (by rw [h1, h2])
    | isFalse h1, _ => isFalse (by intro h; injection h; contradiction)
    | _, isFalse h2 => isFalse (by intro h; injection h; contradiction)

end

instance : DecidableEq YNode := YNode.decEq

/-- Kind of a node. -/
def YNode.kind : YNode → NodeKind
  | .mk k _ _ _ _ => k

/-- Decoded scalar text of a node. -/
def YNode.value : YNode → String
  | .mk _ v _ _ _ => v

/-- Ordered child list of a node. -/
def YNode.content : YNode → List YNode
  | .mk _ _ c _ _ => c

/-- Source line of a node. -/
def YNode.line : YNode → Nat
  | .mk _ _ _ l _ => l

/-- Source column of a node. -/
def YNode.column : YNode → Nat
  | .mk _ _ _ _ c => c

/-- Numeric tag of a node kind, used only for rendering. -/
def NodeKind.tag : NodeKind → Nat
  | .scalar => 0
  | .mapping => 1
  | .sequence => 2

mutual

/-- Canonical string rendering of a node, used by the modelled digest
functions (`fmt.Sprint` in the implementation renders extension values the
same way). -/
def YNode.serialize : YNode → String
  | .mk k v cs l c =>
      "(" ++ toString k.tag ++ "," ++ v ++ "," ++ YNode.serializeList cs ++ ","
        ++ toString l ++ "," ++ toString c ++ ")"

/-- Renders a list of nodes. -/
def YNode.serializeList : List YNode → String
  | [] => ""
  | n :: rest => YNode.serialize n ++ ";" ++ YNode.serializeList rest

end

/-- Modelled from the spec (§4.6): the 256-bit digest (sha256 in the
implementation) is modelled as a deterministic fold of the input string into a
natural number below 2^256.  Every claim about hashing concerns determinism
and order-independence, which hold for any fixed deterministic digest. -/
def digest (s : String) : Nat :=
  s.data.foldl (fun h c => (h * 311 + c.toNat) % (2 ^ 256)) 7

/-- A decoded key value plus the node it was decoded from
(`low.KeyReference[string]`). -/
structure KeyReference where
  value : String
  keyNode : YNode
deriving DecidableEq

/-- A decoded value plus the node it was decoded from
(`low.ValueReference[T]`). -/
structure ValueReference (α : Type) where
  value : α
  valueNode : YNode
deriving DecidableEq

/-- A decoded value together with both its key node and its value node
(`low.NodeReference[T]`); used for the extracted `default` entry. -/
structure NodeReference (α : Type) where
  value : α
  keyNode : YNode
  valueNode : YNode
deriving DecidableEq

/-- Modelled from the spec (§2, §4.7): a nested v3 path-item object.  Its own
fields are out of scope here; its construction is supplied by the build
environment, and only its identity matters to the collection-level claims. -/
structure PathItem where
  built : YNode
deriving DecidableEq

/-- Modelled from the spec (§2, §4.7): a nested v2 response object, supplied
by the build environment exactly like `PathItem`. -/
structure Response where
  built : YNode
deriving DecidableEq

/-- Modelled from the spec (§4.4, §2): the externally supplied collaborators a
`Build` call consumes — the reference index (`resolve` locates a target node
for a reference string, `circularErr` reports the cycle error `locate` returns
alongside a found target, `allowCircular` is the tolerance policy flag) and
the recursive builders of the nested child objects (which return the
constructed object together with an optional build error, since construction
always yields an object even when its own Build reports failure). -/
structure BuildEnv where
  resolve : String → Option YNode
  circularErr : String → Option String
  allowCircular : Bool
  buildPathItem : YNode → YNode → PathItem × Option String
  buildResponse : YNode → YNode → Except String Response

/-- Tests whether the first character list begins with the second. -/
def listStarts : List Char → List Char → Bool
  | _, [] => true
  | [], _ :: _ => false
  | c :: cs, p :: ps => if c = p then listStarts cs ps else false

/-- Go `strings.HasPrefix`, modelled structurally over the character data. -/
def strStarts (s pre : String) : Bool :=
  listStarts s.data pre.data

/-- Go `strings.ToLower`, modelled characterwise (the reserved markers are
ASCII). -/
def strToLower (s : String) : String :=
  String.mk (s.data.map Char.toLower)

/-- Modelled from the spec (§6): alias resolution is the parser's concern and
no claim exercises alias nodes, so `utils.NodeAlias` is the identity here. -/
def nodeAlias (n : YNode) : YNode := n

/-- Pairs up the flat alternating key/value child list of a mapping node. -/
def nodePairs : List YNode → List (YNode × YNode)
  | k :: v :: rest => (k, v) :: nodePairs rest
  | _ => []

/-- Modelled from the spec (§4.3): `low.ExtractExtensions` lifts every key of
the mapping that begins (case-sensitively) with the reserved prefix into a
separate extension map, pairing it with its (opaque) value node. -/
def extractExtensions (root : YNode) : List (KeyReference × YNode) :=
  (nodePairs root.content).filterMap fun kv =>
    if strStarts kv.1.value "x-" then some (⟨kv.1.value, kv.1⟩, kv.2) else none

/-- Modelled from the spec (§4.4): `utils.IsNodeRefValue` recognises a
reference indirection — a mapping whose first key is the marker. -/
def isNodeRefValue : YNode → Bool
  | .mk .mapping _ (k :: _ :: _) _ _ => k.value == "$ref"
  | _ => false

/-- The node holding the reference string of a reference indirection
(`Content[1]` in the implementation). -/
def refOf : YNode → YNode
  | .mk _ _ (_ :: v :: _) _ _ => v
  | n => n

/-- Modelled from the spec (§4.4): `low.LocateRefNode` asks the index for the
target of a reference string, returning the resolved node when one exists
together with the cycle error the resolver reports when the resolution closes
a cycle. -/
def locateRefNode (env : BuildEnv) (ref : String) : Option YNode × Option String :=
  match env.resolve ref with
  | none => (none, none)
  | some r => (some r, env.circularErr ref)

/-- Modelled from the spec (§4.5): `datamodel.TranslatePipeline` feeds the
produced inputs through the transform and collects the results; the first
construction failure encountered fails the whole pipeline after drain.  The
concurrent completion order is modelled as submission order; claims about the
observable results are proved order-independent separately. -/
def translatePipeline {I R : Type} : List I → (I → Except String R) → Except String (List R)
  | [], _ => .ok []
  | x :: xs, f =>
    match f x with
    | .error e => .error e
    | .ok r =>
      match translatePipeline xs f with
      | .error e => .error e
      | .ok rs => .ok (r :: rs)

/-- Sorts a list of strings lexicographically (`sort.Strings`). -/
def sortStrings (l : List String) : List String :=
  l.insertionSort (· ≤ ·)

/-- Lookup in the native Go map built by inserting the entries of the list in
order: the last write to a key wins. -/
def lastAssoc {α : Type} : List (String × α) → String → Option α
  | [], _ => none
  | kv :: rest, k =>
    match lastAssoc rest k with
    | some v => some v
    | none => if kv.1 = k then some kv.2 else none

/-- Modelled from the spec (§4.6): `low.GenerateHashString` renders a child
object's structural hash as a string; for the opaque child objects of this
development that is the digest of their rendered content.  A missing map
entry (impossible for the keys actually looked up) renders as the empty
string. -/
def generateHashStringPI : Option PathItem → String
  | some p => toString (digest p.built.serialize)
  | none => ""

/-- Identical rendering for response children. -/
def generateHashStringR : Option Response → String
  | some r => toString (digest r.built.serialize)
  | none => ""

/-- The v3 `Paths` object: its path items in the order-preserving map, its
vendor extensions, and its own reference metadata (`*low.Reference`,
allocated by Build and carrying no observable content here). -/
structure Paths where
  PathItems : List (KeyReference × ValueReference PathItem)
  Extensions : List (KeyReference × YNode)
  Reference : Option Unit
deriving DecidableEq

/-- FindPath will attempt to locate a PathItem using the provided path
string: the first entry in insertion order whose decoded key equals the
query. -/
def Paths.FindPath (p : Paths) (path : String) : Option (ValueReference PathItem) :=
  (p.PathItems.find? fun pair => pair.1.value == path).map (·.2)

/-- The producer goroutine of Paths.Build: walks the flat child list of the
root, testing every visited node's text (lower-cased) against the reserved
vendor-extension marker and setting a skip flag when it matches, dropping the
node after a match, remembering nodes at even index as the current key, and
emitting a (current key, value) pair at odd index.  A nil current key at a
value position would dereference a nil pointer downstream in the
implementation; it is modelled as emitting nothing and is unreachable in
every claim. -/
def producerLoop : List YNode → Nat → Bool → Option YNode → List (YNode × YNode)
  | [], _, _, _ => []
  | pathNode :: rest, i, skip, currentNode =>
    if strStarts (strToLower pathNode.value) "x-" then
      producerLoop rest (i + 1) true currentNode
    else if skip then
      producerLoop rest (i + 1) false currentNode
    else if i % 2 == 0 then
      producerLoop rest (i + 1) false (some pathNode)
    else
      match currentNode with
      | some c => (c, pathNode) :: producerLoop rest (i + 1) false currentNode
      | none => producerLoop rest (i + 1) false currentNode

/-- The pairs the producer feeds into the translation pipeline. -/
def producerPairs (content : List YNode) : List (YNode × YNode) :=
  producerLoop content 0 false none

/-- Reference-resolution step of the pipeline worker: when the value node is
a reference indirection, locate its target in the index and substitute it;
an unlocatable target is a worker error carrying the reference text and its
position, and a located target whose resolution reports a cycle is a worker
error exactly when the index policy disallows circular resolution. -/
def resolvePathNode (env : BuildEnv) (pNode : YNode) : Except String YNode :=
  if isNodeRefValue pNode then
    match locateRefNode env (refOf pNode).value with
    | (some r, some e) =>
      if env.allowCircular = false then .error ("path item build failed: " ++ e)
      else .ok r
    | (some r, none) => .ok r
    | (none, _) =>
      .error ("path item build failed: cannot find reference: " ++ (refOf pNode).value
        ++ " at line " ++ toString (refOf pNode).line ++ ", col "
        ++ toString (refOf pNode).column)
  else .ok pNode

/-- The transform worker of Paths.Build: resolve the value node if it is a
reference, then construct the child path item.  A child construction error is
logged best-effort and deliberately not propagated (the propagating return is
commented out in the source), so the built entry is emitted regardless. -/
def pathsWorker (env : BuildEnv) (cNode pNode : YNode) :
    Except String (KeyReference × ValueReference PathItem) :=
  match resolvePathNode env pNode with
  | .error e => .error e
  | .ok pN =>
    let built := env.buildPathItem cNode pN
    .ok (⟨cNode.value, cNode⟩, ⟨built.1, pN⟩)

/-- Build will extract extensions and all PathItems.  The consumer inserts
each pipeline result into the destination ordered map; every result carries a
distinct key node, so each insertion appends, and the destination is
installed on the object only when the pipeline reported no error. -/
def Paths.Build (p : Paths) (root : YNode) (env : BuildEnv) : Paths × Option String :=
  let root := nodeAlias root
  let p := { p with Reference := some (), Extensions := extractExtensions root }
  match translatePipeline (producerPairs root.content)
      (fun kv => pathsWorker env kv.1 kv.2) with
  | .error e => (p, some e)
  | .ok results => ({ p with PathItems := results }, none)

/-- Hash will return a consistent SHA256 hash of the Paths object: render
each child as `key-childhash` looking the child up through a native map keyed
by decoded key, sort those strings, append the sorted rendered extensions,
join with a separator and digest. -/
def Paths.Hash (p : Paths) : Nat :=
  let l := p.PathItems.map fun pair => pair.1.value
  let keys := p.PathItems.map fun pair => (pair.1.value, pair.2.value)
  let f := (sortStrings l).map fun k => k ++ "-" ++ generateHashStringPI (lastAssoc keys k)
  let ekeys := sortStrings (p.Extensions.map fun kv =>
    kv.1.value ++ "-" ++ toString (digest kv.2.serialize))
  digest (String.intercalate "|" (f ++ ekeys))

/-- Modelled from the spec (§4.7): the reserved response key that is
special-cased out of the generic code map (the `DefaultLabel` constant). -/
def DefaultLabel : String := "default"

/-- The v2 `Responses` object: the generic code map, the extracted default
entry (its absence modelled as `none`, `IsEmpty` in the implementation), and
the vendor extensions. -/
structure Responses where
  Codes : List (KeyReference × ValueReference Response)
  Default : Option (NodeReference Response)
  Extensions : List (KeyReference × YNode)
deriving DecidableEq

/-- Modelled from the spec (§4.7, §4.3): `low.ExtractMapNoLookup`, the
generic no-indirection-aware map decoder — walk the mapping's pairs in order,
leave vendor-extension keys to the extension map, build each remaining value
into a typed child through the environment, and propagate the first child
build failure. -/
def extractMapNoLookup (env : BuildEnv) :
    List (YNode × YNode) → Except String (List (KeyReference × ValueReference Response))
  | [] => .ok []
  | (k, v) :: rest =>
    if strStarts k.value "x-" then extractMapNoLookup env rest
    else
      match env.buildResponse k v with
      | .error e => .error e
      | .ok resp =>
        match extractMapNoLookup env rest with
        | .error e => .error e
        | .ok built => .ok ((⟨k.value, k⟩, ⟨resp, v⟩) :: built)

/-- Finds the bundled default entry: the first code whose key matches the
reserved label case-insensitively, repackaged with both its nodes. -/
def Responses.getDefault (r : Responses) : Option (NodeReference Response) :=
  (r.Codes.find? fun pair => strToLower pair.1.value == DefaultLabel).map fun pair =>
    ⟨pair.2.value, pair.1.keyNode, pair.2.valueNode⟩

/-- Removal of the first entry whose decoded key equals the code exactly. -/
def deleteFirstCode : List (KeyReference × ValueReference Response) → String →
    List (KeyReference × ValueReference Response)
  | [], _ => []
  | pair :: rest, code =>
    if pair.1.value = code then rest else pair :: deleteFirstCode rest code

/-- Used to remove default from codes extracted by Build: find the key of the
first pair whose decoded value equals the code exactly (case-sensitively) and
delete that entry from the ordered map; since every entry carries a distinct
key node, deleting by the found key removes exactly that first entry, and
when no key matches nothing is deleted. -/
def Responses.deleteCode (r : Responses) (code : String) : Responses :=
  { r with Codes := deleteFirstCode r.Codes code }

/-- Build will extract the default value and extensions from the node: lift
extensions first, then require a mapping root (error with its line and column
otherwise), decode the generic code map, and pull a case-insensitively
matched default entry out into the dedicated field. -/
def Responses.Build (r : Responses) (root : YNode) (env : BuildEnv) :
    Responses × Option String :=
  let root := nodeAlias root
  let r := { r with Extensions := extractExtensions root }
  if root.kind = NodeKind.mapping then
    match extractMapNoLookup env (nodePairs root.content) with
    | .error e => (r, some e)
    | .ok codes =>
      let r := { r with Codes := codes }
      match r.getDefault with
      | some d => ({ r.deleteCode DefaultLabel with Default := some d }, none)
      | none => (r, none)
  else
    (r, some ("responses build failed: vn node is not a map! line "
      ++ toString root.line ++ ", col " ++ toString root.column))

/-- Modelled from the spec (§6, §4.2): `low.FindItemInOrderedMap` — the
lookup accessor scans forward and returns the first entry whose decoded key
is string-equal to the query. -/
def findItemInOrderedMap (item : String)
    (m : List (KeyReference × ValueReference Response)) :
    Option (ValueReference Response) :=
  (m.find? fun pair => pair.1.value == item).map (·.2)

/-- FindResponseByCode will attempt to locate a Response instance using an
HTTP response code string. -/
def Responses.FindResponseByCode (r : Responses) (code : String) :
    Option (ValueReference Response) :=
  findItemInOrderedMap code r.Codes

/-- Hash will return a consistent SHA256 hash of the Responses object, built
exactly like the Paths hash with the default entry's hash appended after the
sorted child block when the default is present. -/
def Responses.Hash (r : Responses) : Nat :=
  let keys := r.Codes.map fun pair => pair.1.value
  let cmap := r.Codes.map fun pair => (pair.1.value, pair.2.value)
  let f := (sortStrings keys).map fun k => k ++ "-" ++ generateHashStringR (lastAssoc cmap k)
  let f := match r.Default with
    | some d => f ++ [generateHashStringR (some d.value)]
    | none => f
  let ekeys := sortStrings (r.Extensions.map fun kv =>
    kv.1.value ++ "-" ++ toString (digest kv.2.serialize))
  digest (String.intercalate "|" (f ++ ekeys))

/-- Sorting is invariant under permutation of the input. -/
theorem sortStrings_perm {l₁ l₂ : List String} (h : l₁.Perm l₂) :
    sortStrings l₁ = sortStrings l₂ := by
  unfold sortStrings
  have hp : (l₁.insertionSort (· ≤ ·)).Perm (l₂.insertionSort (· ≤ ·)) :=
    (List.perm_insertionSort _ l₁).trans (h.trans (List.perm_insertionSort _ l₂).symm)
  exact List.eq_of_perm_of_sorted hp
    (List.sorted_insertionSort _ l₁) (List.sorted_insertionSort _ l₂)

/-- With duplicate-free keys, the native-map lookup is invariant under
permutation of the insertion sequence. -/
theorem lastAssoc_perm {α : Type} {l₁ l₂ : List (String × α)} (h : l₁.Perm l₂) :
    (l₁.map Prod.fst).Nodup → ∀ k, lastAssoc l₁ k = lastAssoc l₂ k := by
  induction h with
  | nil => exact fun _ _ => rfl
  | cons x h ih =>
    intro hnd k
    simp only [List.map_cons, List.nodup_cons] at hnd
    simp only [lastAssoc, ih hnd.2 k]
  | swap x y l =>
    intro hnd k
    simp only [List.map_cons, List.nodup_cons, List.mem_cons] at hnd
    have hxy : y.1 ≠ x.1 := fun hh => hnd.1 (Or.inl hh)
    simp only [lastAssoc]
    cases lastAssoc l k with
    | some v => rfl
    | none =>
      by_cases hx : x.1 = k
      · by_cases hy : y.1 = k
        · exact absurd (hy.trans hx.symm) hxy
        · simp [hx, hy]
      · by_cases hy : y.1 = k
        · simp [hx, hy]
        · simp [hx, hy]
  | trans h1 h2 ih1 ih2 =>
    intro hnd k
    exact (ih1 hnd k).trans (ih2 ((h1.map Prod.fst).nodup hnd) k)

/-- A pipeline whose transform fails on some submitted input fails. -/
theorem translatePipeline_error_of_mem {I R : Type} {l : List I}
    {f : I → Except String R} {x : I} {e : String} (hx : x ∈ l)
    (hf : f x = .error e) : ∃ e', translatePipeline l f = .error e' := by
  induction l with
  | nil => cases hx
  | cons y ys ih =>
    cases hx with
    | head => exact ⟨e, by simp [translatePipeline, hf]⟩
    | tail _ hmem =>
      obtain ⟨e', he'⟩ := ih hmem
      cases hfy : f y with
      | error e2 => exact ⟨e2, by simp [translatePipeline, hfy]⟩
      | ok r => exact ⟨e', by simp [translatePipeline, hfy, he']⟩

/-- A pipeline whose transform succeeds on every submitted input succeeds. -/
theorem translatePipeline_ok_of_all {I R : Type} {l : List I}
    {f : I → Except String R} (h : ∀ x ∈ l, ∃ r, f x = .ok r) :
    ∃ rs, translatePipeline l f = .ok rs := by
  induction l with
  | nil => exact ⟨[], rfl⟩
  | cons y ys ih =>
    obtain ⟨r, hr⟩ := h y (List.mem_cons_self y ys)
    obtain ⟨rs, hrs⟩ := ih fun x hx => h x (List.mem_cons_of_mem y hx)
    exact ⟨r :: rs, by simp [translatePipeline, hr, hrs]⟩

/-- Every successfully transformed submitted input lands in the collected
results of a successful pipeline run. -/
theorem translatePipeline_mem_of_ok {I R : Type} {l : List I}
    {f : I → Except String R} {rs : List R} {x : I} {r : R}
    (hok : translatePipeline l f = .ok rs) (hx : x ∈ l) (hf : f x = .ok r) :
    r ∈ rs := by
  induction l generalizing rs with
  | nil => cases hx
  | cons y ys ih =>
    simp only [translatePipeline] at hok
    cases hfy : f y with
    | error e => rw [hfy] at hok; cases hok
    | ok ry =>
      rw [hfy] at hok
      cases hrest : translatePipeline ys f with
      | error e => rw [hrest] at hok; cases hok
      | ok rys =>
        rw [hrest] at hok
        injection hok with hok
        subst hok
        cases hx with
        | head =>
          rw [hf] at hfy
          injection hfy with hfy
          exact hfy ▸ List.mem_cons_self _ _
        | tail _ hmem => exact List.mem_cons_of_mem _ (ih hrest hmem)

/-- The Paths digest depends only on the sorted key list, the key-indexed
child lookups, and the sorted rendered extensions. -/
theorem pathsHash_congr (p₁ p₂ : Paths)
    (hkeys : sortStrings (p₁.PathItems.map fun pair => pair.1.value)
           = sortStrings (p₂.PathItems.map fun pair => pair.1.value))
    (hlook : ∀ k, lastAssoc (p₁.PathItems.map fun pair => (pair.1.value, pair.2.value)) k
               = lastAssoc (p₂.PathItems.map fun pair => (pair.1.value, pair.2.value)) k)
    (hext : sortStrings (p₁.Extensions.map fun kv =>
              kv.1.value ++ "-" ++ toString (digest kv.2.serialize))
          = sortStrings (p₂.Extensions.map fun kv =>
              kv.1.value ++ "-" ++ toString (digest kv.2.serialize))) :
    p₁.Hash = p₂.Hash := by
  simp only [Paths.Hash]
  rw [hkeys, hext]
  have hfun : (fun k => k ++ "-" ++ generateHashStringPI
        (lastAssoc (p₁.PathItems.map fun pair => (pair.1.value, pair.2.value)) k))
      = (fun k => k ++ "-" ++ generateHashStringPI
        (lastAssoc (p₂.PathItems.map fun pair => (pair.1.value, pair.2.value)) k)) :=
    funext fun k => by rw [hlook k]
  rw [hfun]

/-- The Responses digest depends only on the sorted key list, the key-indexed
child lookups, the default entry, and the sorted rendered extensions. -/
theorem responsesHash_congr (r₁ r₂ : Responses)
    (hkeys : sortStrings (r₁.Codes.map fun pair => pair.1.value)
           = sortStrings (r₂.Codes.map fun pair => pair.1.value))
    (hlook : ∀ k, lastAssoc (r₁.Codes.map fun pair => (pair.1.value, pair.2.value)) k
               = lastAssoc (r₂.Codes.map fun pair => (pair.1.value, pair.2.value)) k)
    (hdef : r₁.Default = r₂.Default)
    (hext : sortStrings (r₁.Extensions.map fun kv =>
              kv.1.value ++ "-" ++ toString (digest kv.2.serialize))
          = sortStrings (r₂.Extensions.map fun kv =>
              kv.1.value ++ "-" ++ toString (digest kv.2.serialize))) :
    r₁.Hash = r₂.Hash := by
  simp only [Responses.Hash]
  rw [hkeys, hdef, hext]
  have hfun : (fun k => k ++ "-" ++ generateHashStringR
        (lastAssoc (r₁.Codes.map fun pair => (pair.1.value, pair.2.value)) k))
      = (fun k => k ++ "-" ++ generateHashStringR
        (lastAssoc (r₂.Codes.map fun pair => (pair.1.value, pair.2.value)) k)) :=
    funext fun k => by rw [hlook k]
  rw [hfun]

/-- C5: for both Paths and Responses, permuting the insertion order of the
child map entries (same keys with their child values, different order, keys
duplicate-free as the ordered map guarantees) leaves the Hash digest
unchanged: the digest is a pure function of the decoded content, independent
of container iteration order. -/
theorem c5_hash_insertion_order_independent :
    (∀ p₁ p₂ : Paths, p₁.PathItems.Perm p₂.PathItems →
      (p₁.PathItems.map fun pair => pair.1.value).Nodup →
      p₁.Extensions = p₂.Extensions → p₁.Hash = p₂.Hash) ∧
    (∀ r₁ r₂ : Responses, r₁.Codes.Perm r₂.Codes →
      (r₁.Codes.map fun pair => pair.1.value).Nodup →
      r₁.Default = r₂.Default → r₁.Extensions = r₂.Extensions →
      r₁.Hash = r₂.Hash) := by
  constructor
  · intro p₁ p₂ hperm hnd hext
    apply pathsHash_congr
    · exact sortStrings_perm (hperm.map _)
    · intro k
      apply lastAssoc_perm (hperm.map _) ?_ k
      simpa [List.map_map, Function.comp_def] using hnd
    · rw [hext]
  · intro r₁ r₂ hperm hnd hdef hext
    apply responsesHash_congr
    · exact sortStrings_perm (hperm.map _)
    · intro k
      apply lastAssoc_perm (hperm.map _) ?_ k
      simpa [List.map_map, Function.comp_def] using hnd
    · exact hdef
    · rw [hext]

/-- C9: the digest is deterministic: two objects holding the same decoded
children and default entry, with the natively stored extensions in any
iteration order, hash identically. -/
theorem c9_hash_deterministic :
    (∀ p₁ p₂ : Paths, p₁.PathItems = p₂.PathItems →
      p₁.Extensions.Perm p₂.Extensions → p₁.Hash = p₂.Hash) ∧
    (∀ r₁ r₂ : Responses, r₁.Codes = r₂.Codes → r₁.Default = r₂.Default →
      r₁.Extensions.Perm r₂.Extensions → r₁.Hash = r₂.Hash) := by
  constructor
  · intro p₁ p₂ hitems hperm
    apply pathsHash_congr
    · rw [hitems]
    · intro k; rw [hitems]
    · exact sortStrings_perm (hperm.map _)
  · intro r₁ r₂ hitems hdef hperm
    apply responsesHash_congr
    · rw [hitems]
    · intro k; rw [hitems]
    · exact hdef
    · exact sortStrings_perm (hperm.map _)

/-- A forward scan returns the first entry satisfying the predicate. -/
theorem find?_first {α : Type} (p : α → Bool) (pre : List α) (x : α)
    (post : List α) (hx : p x = true) (hpre : ∀ a ∈ pre, p a = false) :
    (pre ++ x :: post).find? p = some x := by
  induction pre with
  | nil => simp [List.find?, hx]
  | cons a as ih =>
    have ha : p a = false := hpre a (List.mem_cons_self a as)
    simp only [List.cons_append, List.find?, ha]
    exact ih fun b hb => hpre b (List.mem_cons_of_mem a hb)

/-- Concrete nodes, environments and objects used by the closed evaluation
theorems below. -/
def nScalarA : YNode := .mk .scalar "a" [] 1 1

/-- Scalar value node whose text carries the reserved marker. -/
def nXVal : YNode := .mk .scalar "x-val" [] 1 4

/-- Concrete key node. -/
def nScalarB : YNode := .mk .scalar "b" [] 2 1

/-- Concrete mapping value node. -/
def nMapA : YNode := .mk .mapping "" [] 1 6

/-- Concrete mapping value node. -/
def nMapB : YNode := .mk .mapping "" [] 2 6

/-- Key node spelled with an upper-case initial. -/
def nKeyDefault : YNode := .mk .scalar "Default" [] 1 1

/-- Extension key node. -/
def nKeyXBar : YNode := .mk .scalar "x-bar" [] 2 1

/-- Extension value node. -/
def nValOne : YNode := .mk .scalar "1" [] 2 8

/-- Reference string node. -/
def nRefStr : YNode := .mk .scalar "#/components/pathItems/Pets" [] 3 9

/-- A reference indirection node. -/
def nRefNode : YNode := .mk .mapping "" [.mk .scalar "$ref" [] 3 3, nRefStr] 3 1

/-- Path key node. -/
def nKeyPets : YNode := .mk .scalar "/pets" [] 3 1

/-- Resolution target node. -/
def nTarget : YNode := .mk .mapping "" [] 7 1

/-- Environment with an empty index and error-free child builders. -/
def envTriv : BuildEnv :=
  ⟨fun _ => none, fun _ => none, false, fun _ v => (⟨v⟩, none), fun _ v => .ok ⟨v⟩⟩

/-- Environment resolving every reference to the target node. -/
def envResolve : BuildEnv := { envTriv with resolve := fun _ => some nTarget }

/-- Environment where every resolution closes a cycle, policy disallowing. -/
def envCircDisallow : BuildEnv :=
  { envTriv with
    resolve := fun _ => some nTarget
    circularErr := fun _ => some "circular reference detected" }

/-- Environment where every resolution closes a cycle, policy allowing. -/
def envCircAllow : BuildEnv := { envCircDisallow with allowCircular := true }

/-- Environment whose child path-item builds always report failure. -/
def envChildFail : BuildEnv :=
  { envTriv with buildPathItem := fun _ v => (⟨v⟩, some "child build failed") }

/-- Fresh Paths receiver. -/
def emptyPaths : Paths := ⟨[], [], none⟩

/-- Fresh Responses receiver. -/
def emptyResponses : Responses := ⟨[], none, []⟩

/-- Mapping root holding one upper-cased default entry and one extension. -/
def rootDefaultX : YNode := .mk .mapping "" [nKeyDefault, nMapA, nKeyXBar, nValOne] 1 1

/-- A scalar (non-mapping) root. -/
def rootScalar : YNode := .mk .scalar "hello" [] 9 4

/-- Mapping root holding one path entry whose value is a reference. -/
def rootRef : YNode := .mk .mapping "" [nKeyPets, nRefNode] 1 1

/-- Mapping root holding the single pair a: (mapping). -/
def rootAB : YNode := .mk .mapping "" [nScalarA, nMapA] 1 1

/-- Mapping root holding two plain pairs. -/
def rootTwo : YNode := .mk .mapping "" [nScalarA, nMapA, nScalarB, nMapB] 1 1

/-- Built path entry under key a. -/
def entryA : KeyReference × ValueReference PathItem := (⟨"a", nScalarA⟩, ⟨⟨nMapA⟩, nMapA⟩)

/-- Built path entry under key b. -/
def entryB : KeyReference × ValueReference PathItem := (⟨"b", nScalarB⟩, ⟨⟨nMapB⟩, nMapB⟩)

/-- Built path entry under the upper-cased key A. -/
def entryUpperA : KeyReference × ValueReference PathItem := (⟨"A", nScalarB⟩, ⟨⟨nMapB⟩, nMapB⟩)

/-- Built response entry under code 200. -/
def rEntry200 : KeyReference × ValueReference Response := (⟨"200", nScalarA⟩, ⟨⟨nMapA⟩, nMapA⟩)

/-- Built response entry under code 404. -/
def rEntry404 : KeyReference × ValueReference Response := (⟨"404", nScalarB⟩, ⟨⟨nMapB⟩, nMapB⟩)

/-- Extension entry x-a. -/
def extA : KeyReference × YNode := (⟨"x-a", nScalarA⟩, nScalarA)

/-- Extension entry x-b. -/
def extB : KeyReference × YNode := (⟨"x-b", nScalarB⟩, nScalarB)

/-- Witness for C5: two concrete Paths objects and two concrete Responses
objects whose child lists are genuine transpositions of each other satisfy
the hypotheses and hash identically. -/
theorem c5_witness :
    ((Paths.mk [entryA, entryB] [] none).PathItems.Perm
       (Paths.mk [entryB, entryA] [] none).PathItems ∧
     ((Paths.mk [entryA, entryB] [] none).PathItems.map fun pair => pair.1.value).Nodup ∧
     (Paths.mk [entryA, entryB] [] none).Hash = (Paths.mk [entryB, entryA] [] none).Hash) ∧
    ((Responses.mk [rEntry200, rEntry404] none []).Codes.Perm
       (Responses.mk [rEntry404, rEntry200] none []).Codes ∧
     ((Responses.mk [rEntry200, rEntry404] none []).Codes.map fun pair => pair.1.value).Nodup ∧
     (Responses.mk [rEntry200, rEntry404] none []).Hash
       = (Responses.mk [rEntry404, rEntry200] none []).Hash) := by
  have hp : (Paths.mk [entryA, entryB] [] none).PathItems.Perm
      (Paths.mk [entryB, entryA] [] none).PathItems := List.Perm.swap entryB entryA []
  have hr : (Responses.mk [rEntry200, rEntry404] none []).Codes.Perm
      (Responses.mk [rEntry404, rEntry200] none []).Codes := List.Perm.swap rEntry404 rEntry200 []
  refine ⟨⟨hp, by decide, ?_⟩, ⟨hr, by decide, ?_⟩⟩
  · exact c5_hash_insertion_order_independent.1 _ _ hp (by decide) rfl
  · exact c5_hash_insertion_order_independent.2 _ _ hr (by decide) rfl rfl

/-- Witness for C9: same decoded content with the extension entries stored in
transposed iteration orders hashes identically, for both object types. -/
theorem c9_witness :
    ((Paths.mk [entryA] [extA, extB] none).PathItems
       = (Paths.mk [entryA] [extB, extA] none).PathItems ∧
     (Paths.mk [entryA] [extA, extB] none).Extensions.Perm
       (Paths.mk [entryA] [extB, extA] none).Extensions ∧
     (Paths.mk [entryA] [extA, extB] none).Hash = (Paths.mk [entryA] [extB, extA] none).Hash) ∧
    ((Responses.mk [rEntry200] none [extA, extB]).Codes
       = (Responses.mk [rEntry200] none [extB, extA]).Codes ∧
     (Responses.mk [rEntry200] none [extA, extB]).Extensions.Perm
       (Responses.mk [rEntry200] none [extB, extA]).Extensions ∧
     (Responses.mk [rEntry200] none [extA, extB]).Hash
       = (Responses.mk [rEntry200] none [extB, extA]).Hash) := by
  have hp : (Paths.mk [entryA] [extA, extB] none).Extensions.Perm
      (Paths.mk [entryA] [extB, extA] none).Extensions := List.Perm.swap extB extA []
  have hr : (Responses.mk [rEntry200] none [extA, extB]).Extensions.Perm
      (Responses.mk [rEntry200] none [extB, extA]).Extensions := List.Perm.swap extB extA []
  refine ⟨⟨rfl, hp, ?_⟩, ⟨rfl, hr, ?_⟩⟩
  · exact c9_hash_deterministic.1 _ _ rfl hp
  · exact c9_hash_deterministic.2 _ _ rfl rfl hr

/-- C10: the lookup accessors match keys exactly and case-sensitively: for
both FindPath and FindResponseByCode, a query matching no decoded key (even
one differing only in case) finds nothing, and a query equal to some decoded
key returns the value reference of the first such entry in insertion
order. -/
theorem c10_find_exact_first :
    (∀ (p : Paths) (q : String),
      ((∀ pair ∈ p.PathItems, pair.1.value ≠ q) → p.FindPath q = none) ∧
      (∀ pre entry post, p.PathItems = pre ++ entry :: post → entry.1.value = q →
        (∀ pair ∈ pre, pair.1.value ≠ q) → p.FindPath q = some entry.2)) ∧
    (∀ (r : Responses) (q : String),
      ((∀ pair ∈ r.Codes, pair.1.value ≠ q) → r.FindResponseByCode q = none) ∧
      (∀ pre entry post, r.Codes = pre ++ entry :: post → entry.1.value = q →
        (∀ pair ∈ pre, pair.1.value ≠ q) → r.FindResponseByCode q = some entry.2)) := by
  constructor
  · intro p q
    constructor
    · intro hall
      have h : p.PathItems.find? (fun pair => pair.1.value == q) = none := by
        rw [List.find?_eq_none]
        intro pair hmem
        simpa using hall pair hmem
      simp [Paths.FindPath, h]
    · intro pre entry post heq hkey hpre
      have h : p.PathItems.find? (fun pair => pair.1.value == q) = some entry := by
        rw [heq]
        refine find?_first _ pre entry post (by simpa using hkey) ?_
        intro a ha
        simpa using hpre a ha
      simp [Paths.FindPath, h]
  · intro r q
    constructor
    · intro hall
      have h : r.Codes.find? (fun pair => pair.1.value == q) = none := by
        rw [List.find?_eq_none]
        intro pair hmem
        simpa using hall pair hmem
      simp [Responses.FindResponseByCode, findItemInOrderedMap, h]
    · intro pre entry post heq hkey hpre
      have h : r.Codes.find? (fun pair => pair.1.value == q) = some entry := by
        rw [heq]
        refine find?_first _ pre entry post (by simpa using hkey) ?_
        intro a ha
        simpa using hpre a ha
      simp [Responses.FindResponseByCode, findItemInOrderedMap, h]

/-- Witness for C10: on a Paths object with keys a and A, the query A finds
the A entry (first string-equal entry, not the case-insensitive first), a
missing key finds nothing, and on a Responses object holding only the key
default the upper-cased query DEFAULT finds nothing. -/
theorem c10_witness :
    (Paths.mk [entryA, entryUpperA] [] none).FindPath "A" = some entryUpperA.2 ∧
    (Paths.mk [entryA, entryUpperA] [] none).FindPath "b" = none ∧
    (Responses.mk [(⟨"default", nScalarA⟩, ⟨⟨nMapA⟩, nMapA⟩)] none []).FindResponseByCode
      "DEFAULT" = none := by
  refine ⟨?_, ?_, ?_⟩
  · exact (c10_find_exact_first.1 (Paths.mk [entryA, entryUpperA] [] none) "A").2
      [entryA] entryUpperA [] rfl rfl (by decide)
  · exact (c10_find_exact_first.1 (Paths.mk [entryA, entryUpperA] [] none) "b").1 (by decide)
  · exact (c10_find_exact_first.2
      (Responses.mk [(⟨"default", nScalarA⟩, ⟨⟨nMapA⟩, nMapA⟩)] none []) "DEFAULT").1 (by decide)

/-- C8: whenever Paths.Build returns an error, the receiver's PathItems
field is left unchanged from its pre-Build value: the partially populated
destination map of the pipeline is never installed without the error being
signalled. -/
theorem c8_pathitems_unassigned_on_error :
    ∀ (p : Paths) (root : YNode) (env : BuildEnv),
      (Paths.Build p root env).2 ≠ none →
      (Paths.Build p root env).1.PathItems = p.PathItems := by
  intro p root env h
  simp only [Paths.Build, nodeAlias] at h ⊢
  cases htp : translatePipeline (producerPairs root.content)
      (fun kv => pathsWorker env kv.1 kv.2) with
  | error e => rfl
  | ok results => rw [htp] at h; exact absurd rfl h

/-- Witness for C8: a build failing on an unresolvable reference leaves a
non-empty pre-Build PathItems list untouched. -/
theorem c8_witness :
    (Paths.Build (Paths.mk [entryB] [] none) rootRef envTriv).2 ≠ none ∧
    (Paths.Build (Paths.mk [entryB] [] none) rootRef envTriv).1.PathItems
      = (Paths.mk [entryB] [] none).PathItems :=
  ⟨by decide, c8_pathitems_unassigned_on_error (Paths.mk [entryB] [] none) rootRef envTriv
    (by decide)⟩

/-- Counterexample for C3: Paths.Build on a scalar (non-mapping) root returns
no error at all, against the claim that both builder variants fail on a
malformed root. -/
theorem c3_counterexample :
    (Paths.Build emptyPaths rootScalar envTriv).2 = none := by decide

/-- C3 (amended): Responses.Build rejects every non-mapping root with an
error naming the root's line and column, while Paths.Build performs no root
kind check at all: on a scalar root (which has no children) it succeeds with
an empty PathItems map. -/
theorem c3_malformed_root :
    (∀ (r : Responses) (root : YNode) (env : BuildEnv), root.kind ≠ NodeKind.mapping →
      (Responses.Build r root env).2 =
        some ("responses build failed: vn node is not a map! line "
          ++ toString root.line ++ ", col " ++ toString root.column)) ∧
    (∀ (p : Paths) (root : YNode) (env : BuildEnv), root.content = [] →
      (Paths.Build p root env).2 = none) := by
  constructor
  · intro r root env hk
    simp only [Responses.Build, nodeAlias]
    rw [if_neg hk]
  · intro p root env hc
    simp [Paths.Build, nodeAlias, hc, producerPairs, producerLoop, translatePipeline]

/-- Witness for C3 (amended): both conjuncts at the concrete scalar root. -/
theorem c3_witness :
    ((Responses.Build emptyResponses rootScalar envTriv).2 =
      some ("responses build failed: vn node is not a map! line "
        ++ toString rootScalar.line ++ ", col " ++ toString rootScalar.column)) ∧
    (Paths.Build emptyPaths rootScalar envTriv).2 = none :=
  ⟨c3_malformed_root.1 emptyResponses rootScalar envTriv (by decide),
   c3_malformed_root.2 emptyPaths rootScalar envTriv (by decide)⟩

/-- C6: a pair fed to the pipeline whose value is a reference indirection
with no target in the index makes the worker fail with an error carrying the
reference text and its line and column, and makes Paths.Build return an
error. -/
theorem c6_unresolvable_reference :
    ∀ (p : Paths) (env : BuildEnv) (root k v : YNode),
      (k, v) ∈ producerPairs root.content → isNodeRefValue v = true →
      env.resolve (refOf v).value = none →
      pathsWorker env k v = .error ("path item build failed: cannot find reference: "
        ++ (refOf v).value ++ " at line " ++ toString (refOf v).line
        ++ ", col " ++ toString (refOf v).column) ∧
      (Paths.Build p root env).2 ≠ none := by
  intro p env root k v hmem href hres
  have hw : pathsWorker env k v = .error ("path item build failed: cannot find reference: "
      ++ (refOf v).value ++ " at line " ++ toString (refOf v).line
      ++ ", col " ++ toString (refOf v).column) := by
    simp [pathsWorker, resolvePathNode, href, locateRefNode, hres]
  refine ⟨hw, ?_⟩
  obtain ⟨e', he'⟩ := translatePipeline_error_of_mem
    (f := fun kv => pathsWorker env kv.1 kv.2) hmem hw
  simp only [Paths.Build, nodeAlias]
  rw [he']
  simp

/-- Witness for C6: the /pets entry referring to an absent target. -/
theorem c6_witness :
    ((nKeyPets, nRefNode) ∈ producerPairs rootRef.content ∧
     isNodeRefValue nRefNode = true ∧
     envTriv.resolve (refOf nRefNode).value = none) ∧
    (pathsWorker envTriv nKeyPets nRefNode
      = .error ("path item build failed: cannot find reference: "
        ++ (refOf nRefNode).value ++ " at line " ++ toString (refOf nRefNode).line
        ++ ", col " ++ toString (refOf nRefNode).column) ∧
     (Paths.Build emptyPaths rootRef envTriv).2 ≠ none) :=
  ⟨⟨by decide, by decide, rfl⟩,
   c6_unresolvable_reference emptyPaths envTriv rootRef nKeyPets nRefNode
     (by decide) (by decide) rfl⟩

/-- C7: when the index disallows circular resolution and a fed reference
pair's resolution closes a cycle, the worker fails with a descriptive error
and Paths.Build returns an error; when the policy allows circular
resolution, Build completes whenever every fed reference has a target in the
index. -/
theorem c7_circular_reference_policy :
    ∀ (p : Paths) (env : BuildEnv) (root : YNode),
      (env.allowCircular = false →
        ∀ k v r ce, (k, v) ∈ producerPairs root.content → isNodeRefValue v = true →
          env.resolve (refOf v).value = some r →
          env.circularErr (refOf v).value = some ce →
          pathsWorker env k v = .error ("path item build failed: " ++ ce) ∧
          (Paths.Build p root env).2 ≠ none) ∧
      (env.allowCircular = true →
        (∀ k v, (k, v) ∈ producerPairs root.content → isNodeRefValue v = true →
          ∃ r, env.resolve (refOf v).value = some r) →
        (Paths.Build p root env).2 = none) := by
  intro p env root
  constructor
  · intro hallow k v r ce hmem href hres hcirc
    have hw : pathsWorker env k v = .error ("path item build failed: " ++ ce) := by
      simp [pathsWorker, resolvePathNode, href, locateRefNode, hres, hcirc, hallow]
    refine ⟨hw, ?_⟩
    obtain ⟨e', he'⟩ := translatePipeline_error_of_mem
      (f := fun kv => pathsWorker env kv.1 kv.2) hmem hw
    simp only [Paths.Build, nodeAlias]
    rw [he']
    simp
  · intro hallow hres
    have hall : ∀ x ∈ producerPairs root.content,
        ∃ res, pathsWorker env x.1 x.2 = .ok res := by
      intro x hx
      by_cases hrf : isNodeRefValue x.2 = true
      · obtain ⟨r, hr⟩ := hres x.1 x.2 hx hrf
        cases hc : env.circularErr (refOf x.2).value with
        | none =>
          exact ⟨(⟨x.1.value, x.1⟩, ⟨(env.buildPathItem x.1 r).1, r⟩),
            by simp [pathsWorker, resolvePathNode, hrf, locateRefNode, hr, hc]⟩
        | some ce =>
          exact ⟨(⟨x.1.value, x.1⟩, ⟨(env.buildPathItem x.1 r).1, r⟩),
            by simp [pathsWorker, resolvePathNode, hrf, locateRefNode, hr, hc, hallow]⟩
      · exact ⟨(⟨x.1.value, x.1⟩, ⟨(env.buildPathItem x.1 x.2).1, x.2⟩),
          by simp [pathsWorker, resolvePathNode, hrf]⟩
    obtain ⟨rs, hrs⟩ := translatePipeline_ok_of_all
      (f := fun kv => pathsWorker env kv.1 kv.2) (fun x hx => hall x hx)
    simp only [Paths.Build, nodeAlias]
    rw [hrs]

/-- Witness for C7: the same cyclic reference entry rejected under the
disallowing policy and tolerated under the allowing policy. -/
theorem c7_witness :
    (envCircDisallow.allowCircular = false ∧
     pathsWorker envCircDisallow nKeyPets nRefNode
       = .error ("path item build failed: " ++ "circular reference detected") ∧
     (Paths.Build emptyPaths rootRef envCircDisallow).2 ≠ none) ∧
    (envCircAllow.allowCircular = true ∧
     (Paths.Build emptyPaths rootRef envCircAllow).2 = none) := by
  have h1 := (c7_circular_reference_policy emptyPaths envCircDisallow rootRef).1 rfl
    nKeyPets nRefNode nTarget "circular reference detected" (by decide) (by decide) rfl rfl
  have h2 := (c7_circular_reference_policy emptyPaths envCircAllow rootRef).2 rfl ?_
  · exact ⟨⟨rfl, h1.1, h1.2⟩, ⟨rfl, h2⟩⟩
  · intro k v hmem href
    have hpp : producerPairs rootRef.content = [(nKeyPets, nRefNode)] := by decide
    rw [hpp] at hmem
    have heq := List.mem_singleton.mp hmem
    injection heq with hk hv
    subst hk
    subst hv
    exact ⟨nTarget, rfl⟩

/-- Counterexample for C4: with a child builder that always reports failure,
Paths.Build nevertheless succeeds and the failed entry appears in the
resulting PathItems map — the entry is not skipped as the claim states. -/
theorem c4_counterexample :
    (Paths.Build emptyPaths rootAB envChildFail).2 = none ∧
    (Paths.Build emptyPaths rootAB envChildFail).1.FindPath "a" ≠ none := by
  exact ⟨by decide, by decide⟩

/-- C4 (amended): a child build failure is propagated immediately as the
result of Responses.Build, while in Paths.Build the failure is best-effort
logged and the entry is nevertheless constructed and included in the
resulting PathItems map, construction of the remaining children
continuing. -/
theorem c4_child_failure_policy :
    (∀ (r : Responses) (env : BuildEnv) (root : YNode) (e : String),
      root.kind = NodeKind.mapping →
      extractMapNoLookup env (nodePairs root.content) = .error e →
      (Responses.Build r root env).2 = some e) ∧
    (∀ (p : Paths) (env : BuildEnv) (root k v : YNode) (item : PathItem) (emsg : String),
      (k, v) ∈ producerPairs root.content → isNodeRefValue v = false →
      env.buildPathItem k v = (item, some emsg) →
      (∀ x ∈ producerPairs root.content, ∃ res, pathsWorker env x.1 x.2 = .ok res) →
      (Paths.Build p root env).2 = none ∧
      ((⟨k.value, k⟩ : KeyReference), (⟨item, v⟩ : ValueReference PathItem))
        ∈ (Paths.Build p root env).1.PathItems) := by
  constructor
  · intro r env root e hk herr
    simp only [Responses.Build, nodeAlias]
    rw [if_pos hk, herr]
  · intro p env root k v item emsg hmem hrf hbuild hall
    obtain ⟨rs, hrs⟩ := translatePipeline_ok_of_all
      (f := fun kv => pathsWorker env kv.1 kv.2) (fun x hx => hall x hx)
    have hw : pathsWorker env k v = .ok (⟨k.value, k⟩, ⟨item, v⟩) := by
      simp [pathsWorker, resolvePathNode, hrf, hbuild]
    constructor
    · simp only [Paths.Build, nodeAlias]
      rw [hrs]
    · simp only [Paths.Build, nodeAlias]
      rw [hrs]
      exact translatePipeline_mem_of_ok hrs hmem hw

/-- Witness for C4 (amended): a failing response child fails the whole
Responses.Build with the same error, while two failing path children leave
Paths.Build successful with both entries present. -/
theorem c4_witness :
    ((Responses.Build emptyResponses rootAB
        { envTriv with buildResponse := fun _ _ => .error "response child failed" }).2
      = some "response child failed") ∧
    ((Paths.Build emptyPaths rootTwo envChildFail).2 = none ∧
     ((⟨nScalarA.value, nScalarA⟩ : KeyReference),
       (⟨⟨nMapA⟩, nMapA⟩ : ValueReference PathItem))
       ∈ (Paths.Build emptyPaths rootTwo envChildFail).1.PathItems) := by
  constructor
  · exact c4_child_failure_policy.1 emptyResponses
      { envTriv with buildResponse := fun _ _ => .error "response child failed" }
      rootAB "response child failed" (by decide) rfl
  · refine c4_child_failure_policy.2 emptyPaths envChildFail rootTwo nScalarA nMapA
      ⟨nMapA⟩ "child build failed" (by decide) (by decide) rfl ?_
    intro x hx
    have hpp : producerPairs rootTwo.content = [(nScalarA, nMapA), (nScalarB, nMapB)] := by
      decide
    rw [hpp] at hx
    have hx2 := hx
    simp only [List.mem_cons, List.not_mem_nil, or_false] at hx2
    rcases hx2 with h | h
    · rw [h]
      exact ⟨(⟨"a", nScalarA⟩, ⟨⟨nMapA⟩, nMapA⟩), rfl⟩
    · rw [h]
      exact ⟨(⟨"b", nScalarB⟩, ⟨⟨nMapB⟩, nMapB⟩), rfl⟩

/-- C1: evaluation at the failing input.  In the mapping a: x-val no key
carries the reserved marker, yet the producer feeds nothing: it tested the
value node's text, set the skip flag, and dropped the pair.  In the longer
mapping a: x-val, b: (mapping) it moreover consumes the following key b while
skipping, mispairing key a with b's value. -/
theorem c1_producer_tests_value_nodes :
    strStarts (strToLower nScalarA.value) "x-" = false ∧
    strStarts (strToLower nScalarB.value) "x-" = false ∧
    producerPairs [nScalarA, nXVal] = [] ∧
    producerPairs [nScalarA, nXVal, nScalarB, nMapB] = [(nScalarA, nMapB)] := by
  exact ⟨by decide, by decide, by decide, by decide⟩

/-- C2: evaluation at the failing input.  Build on the mapping holding
Default: (mapping) and x-bar: 1 succeeds, populates the dedicated Default
field from the case-insensitively matched key and isolates the extension,
yet the matched key Default survives in the generic Codes map — the deletion
compares case-sensitively against the lower-case label and removes nothing,
so FindResponseByCode still returns it. -/
theorem c2_default_not_deleted :
    (Responses.Build emptyResponses rootDefaultX envTriv).2 = none ∧
    (Responses.Build emptyResponses rootDefaultX envTriv).1.Default
      = some ⟨⟨nMapA⟩, nKeyDefault, nMapA⟩ ∧
    (Responses.Build emptyResponses rootDefaultX envTriv).1.FindResponseByCode "Default"
      ≠ none ∧
    (Responses.Build emptyResponses rootDefaultX envTriv).1.Extensions
      = [(⟨"x-bar", nKeyXBar⟩, nValOne)] := by
  exact ⟨by decide, by decide, by decide, by decide⟩
